import Mathlib

/-!
Verification of the weight-wb printer/scale core

Shallow embedding of the hardware-control core of the `weight-wb`
point-of-sale terminal (Brother QL thermal printer driver and serial
scale poller), together with proofs about its geometry tables, status
decoding, raster bit-packing and response parsing.

Machine integers of the source are modelled as `Nat`; byte buffers are
`List Nat` whose entries are byte values.  Fallible operations return
`Except`/`Option`; a Rust panic is modelled as `none`.
-/

namespace WeightWb

/-- Decidable equality for `Except`, used to evaluate the embedded
operations on concrete inputs. -/
instance {ε α : Type _} [DecidableEq ε] [DecidableEq α] : DecidableEq (Except ε α) :=
  fun x y =>
    match x, y with
    | .ok a, .ok b =>
      if h : a = b then .isTrue (by rw [h])
      else .isFalse (fun hh => h (Except.ok.inj hh))
    | .error a, .error b =>
      if h : a = b then .isTrue (by rw [h])
      else .isFalse (fun hh => h (Except.error.inj hh))
    | .ok _, .error _ => .isFalse (fun hh => Except.noConfusion hh)
    | .error _, .ok _ => .isFalse (fun hh => Except.noConfusion hh)

/-! ## Printer models (`src/printer/model.rs`) -/

/-- The fixed enumeration of supported printer models. -/
inductive Model
  | BrotherQL500
  | BrotherQL550
  | BrotherQL560
  | BrotherQL570
  | BrotherQL580N
  | BrotherQL600
  | BrotherQL650TD
  | BrotherQL700
  | BrotherQL1050
  | BrotherQL1060N
deriving DecidableEq

/-- Source `Model::line_width`: width of the print head line buffer in bytes. -/
def Model.line_width : Model → Nat
  | .BrotherQL500 => 90
  | .BrotherQL550 => 90
  | .BrotherQL560 => 90
  | .BrotherQL570 => 90
  | .BrotherQL580N => 90
  | .BrotherQL600 => 90
  | .BrotherQL650TD => 90
  | .BrotherQL700 => 90
  | .BrotherQL1050 => 162
  | .BrotherQL1060N => 162

/-- The bare model designation matched by `TryFrom<&str> for Model`
(the string literals of its `match`). -/
def Model.designation : Model → String
  | .BrotherQL500 => "500"
  | .BrotherQL550 => "550"
  | .BrotherQL560 => "560"
  | .BrotherQL570 => "570"
  | .BrotherQL580N => "580N"
  | .BrotherQL600 => "600"
  | .BrotherQL650TD => "650TD"
  | .BrotherQL700 => "700"
  | .BrotherQL1050 => "1050"
  | .BrotherQL1060N => "1060N"

/-- Source `str::strip_prefix(p).unwrap_or(value)`: drop `p` from the front of
`s` when it is literally there, otherwise keep `s` unchanged. -/
def stripPre (p s : String) : String :=
  if p.data.isPrefixOf s.data then ⟨s.data.drop p.data.length⟩ else s

/-- Source `TryFrom<&str> for Model`: strip optional `"Brother"` and `"QL"`
prefixes, then match the remainder against the designations.  The Rust
`match` over string literals is written as the equivalent chain of
equality tests. -/
def Model.fromName (s0 : String) : Except String Model :=
  let s1 := stripPre "Brother" s0
  let s := stripPre "QL" s1
  if s = "500" then .ok .BrotherQL500
  else if s = "550" then .ok .BrotherQL550
  else if s = "560" then .ok .BrotherQL560
  else if s = "570" then .ok .BrotherQL570
  else if s = "580N" then .ok .BrotherQL580N
  else if s = "600" then .ok .BrotherQL600
  else if s = "650TD" then .ok .BrotherQL650TD
  else if s = "700" then .ok .BrotherQL700
  else if s = "1050" then .ok .BrotherQL1050
  else if s = "1060N" then .ok .BrotherQL1060N
  else .error ("Unknown product name: " ++ s)

/-! ## Labels (`src/printer/label.rs`) -/

/-- Source `LabelType`: the media descriptor decoded from a status frame. -/
inductive LabelType
  | Continuous (width : Nat)
  | DieCut (width : Nat) (length : Nat)
deriving DecidableEq

/-- Source `LabelType::from_bytes` (the `eprintln!` diagnostics of the source
are side effects without influence on the result and are omitted). -/
def LabelType.from_bytes (ty width length : Nat) : Option LabelType :=
  if ty = 0x0a then some (.Continuous width)
  else if ty = 0x0b then some (.DieCut width length)
  else none

/-- Source `LabelType::as_bytes`. -/
def LabelType.as_bytes : LabelType → Nat × Nat × Nat
  | .Continuous width => (0x0a, width, 0x00)
  | .DieCut width length => (0x0b, width, length)

/-- Source `Label`: resolved geometry for a (model, media) pair. -/
structure Label where
  ty : LabelType
  printable_dots_width : Nat
  printable_dots_length : Option Nat
  margin_dots_right : Nat
  margin_dots_length : Nat
deriving DecidableEq

/-- Unknown-continuous-width error text of `Label::try_from`
(irreducible so symbolic-width reasoning never unfolds the
well-founded `toString` recursion). -/
@[irreducible] def unknownContinuousMsg (width : Nat) : String :=
  "Unknown continuous label type (width: " ++ toString width ++ " mm)"

/-- Unknown-die-cut-size error text of `Label::try_from`. -/
@[irreducible] def unknownDieCutMsg (width length : Nat) : String :=
  "Unknown die-cut label type (dimensions: " ++ toString width
    ++ "x" ++ toString length ++ " mm)"

/-- The continuous-media table of `Label::try_from` (columns: printable
dots, right-margin dots with the `is_wide` branch), entry for entry the
`match width` of the source, the literal patterns rendered as an
equality chain. -/
def continuousEntry (is_wide : Bool) (width : Nat) : Except String (Nat × Nat) :=
  if width = 12 then .ok (106, if is_wide then 74 else 29)
  else if width = 29 then .ok (306, if is_wide then 50 else 6)
  else if width = 38 then .ok (413, if is_wide then 56 else 12)
  else if width = 50 then .ok (554, if is_wide then 56 else 12)
  else if width = 54 then .ok (590, if is_wide then 44 else 0)
  else if width = 62 then .ok (696, if is_wide then 56 else 12)
  else if width = 102 then .ok (1164, 56)
  else .error (unknownContinuousMsg width)

/-- The die-cut table of `Label::try_from` (printable dots width and
length, right-margin dots), entry for entry the `match (width, length)`
of the source, the tuple patterns grouped by width. -/
def dieCutEntry (is_wide : Bool) (width length : Nat) : Except String (Nat × Nat × Nat) :=
  if width = 17 then
    if length = 54 then .ok (165, 566, if is_wide then 44 else 0)
    else if length = 87 then .ok (165, 956, if is_wide then 44 else 0)
    else .error (unknownDieCutMsg width length)
  else if width = 23 then
    if length = 23 then .ok (236, 202, if is_wide then 84 else 42)
    else .error (unknownDieCutMsg width length)
  else if width = 29 then
    if length = 90 then .ok (306, 991, if is_wide then 50 else 6)
    else .error (unknownDieCutMsg width length)
  else if width = 38 then
    if length = 90 then .ok (413, 991, if is_wide then 56 else 12)
    else .error (unknownDieCutMsg width length)
  else if width = 39 then
    if length = 48 then .ok (425, 495, if is_wide then 50 else 6)
    else .error (unknownDieCutMsg width length)
  else if width = 52 then
    if length = 29 then .ok (578, 271, if is_wide then 44 else 0)
    else .error (unknownDieCutMsg width length)
  else if width = 62 then
    if length = 29 then .ok (696, 271, if is_wide then 56 else 12)
    else if length = 100 then .ok (696, 1109, if is_wide then 56 else 12)
    else .error (unknownDieCutMsg width length)
  else if width = 102 then
    if length = 51 then .ok (1164, 526, 56)
    else if length = 152 then .ok (1164, 1660, 56)
    else .error (unknownDieCutMsg width length)
  else .error (unknownDieCutMsg width length)

/-- Source `TryFrom<(Model, LabelType)> for Label`: the geometry lookup,
with the `is_wide` margin branching, dispatching into the two tables
above. -/
def Label.try_from (model : Model) (ty : LabelType) : Except String Label :=
  let is_wide : Bool :=
    model = Model.BrotherQL1050 ∨ model = Model.BrotherQL1060N
  match ty with
  | .Continuous width =>
    (continuousEntry is_wide width).map fun wm =>
      { ty := ty
        printable_dots_width := wm.1
        printable_dots_length := none
        margin_dots_right := wm.2
        margin_dots_length := 35 }
  | .DieCut width length =>
    (dieCutEntry is_wide width length).map fun wlm =>
      { ty := ty
        printable_dots_width := wlm.1
        printable_dots_length := some wlm.2.1
        margin_dots_right := wlm.2.2
        margin_dots_length := 0 }

/-! ## Status codec (`src/printer/status.rs`)

The USB transport is outside the pure embedding: the outcome of the
bulk read is passed in as the pair `(read_bytes, data)` of the returned
byte count and the 32-byte receive buffer.  Consequently the
`USBError` variant of the source's status error enum (a transport
failure) has no counterpart here. -/

/-- Source `status::Error` (exported as `StatusError`), minus the transport
variant. -/
inductive StatusError
  | WrongResponseSizeUSB (len : Nat)
  | WrongPrintHeadMark (mark : Nat)
  | WrongResponseSizeHeader (len : Nat)
  | InvalidLabel (msg : String)
deriving DecidableEq

/-- Source `StatusType` with its explicit unknown-code catch-all. -/
inductive StatusType
  | StatusReply
  | PrintingCompleted
  | ErrorOccurred
  | Notification
  | PhaseChange
  | Unknown (raw : Nat)
deriving DecidableEq

/-- Source `From<u8> for StatusType`. -/
def StatusType.fromByte (v : Nat) : StatusType :=
  if v = 0x00 then .StatusReply
  else if v = 0x01 then .PrintingCompleted
  else if v = 0x02 then .ErrorOccurred
  else if v = 0x05 then .Notification
  else if v = 0x06 then .PhaseChange
  else .Unknown v

/-- Source `PhaseType` with its explicit unknown-code catch-all. -/
inductive PhaseType
  | Waiting
  | Printing
  | Unknown (raw : Nat)
deriving DecidableEq

/-- Source `From<u8> for PhaseType`. -/
def PhaseType.fromByte (v : Nat) : PhaseType :=
  if v = 0x00 then .Waiting
  else if v = 0x01 then .Printing
  else .Unknown v

/-- Source `Notification` with its explicit unknown-code catch-all. -/
inductive Notification
  | CoolingStart
  | CoolingFinish
  | Unknown (raw : Nat)
deriving DecidableEq

/-- Source `Notification::from_byte`. -/
def Notification.from_byte (v : Nat) : Option Notification :=
  if v = 0x00 then none
  else if v = 0x03 then some .CoolingStart
  else if v = 0x04 then some .CoolingFinish
  else some (.Unknown v)

/-- The union of all flag constants declared in the `ErrorFlags`
bitflags block: LSB bits 0,1,2,4,7 and MSB bits 10,12,14,15. -/
def errorFlagsMask : Nat := 0xD497

/-- Source `ErrorFlags::from_bits_truncate`: keep the declared bits, silently
drop every other bit. -/
def from_bits_truncate (bits : Nat) : Nat := bits &&& errorFlagsMask

/-- Source `Status`.  `error_flags` holds the (truncated) 16-bit flag set as a
plain number; `is_empty` of the source is `= 0` here. -/
structure Status where
  error_flags : Nat
  label : Option Label
  status_type : StatusType
  phase_type : PhaseType
  notification : Option Notification
deriving DecidableEq

/-- The decoding half of `Printer::read_status_response`: everything
after the three header validations.  `Media::from_bytes` of the source
is byte-for-byte the same decode as `LabelType::from_bytes`, which is
used here. -/
def decode_status (model : Model) (data : List Nat) : Except StatusError Status :=
  match LabelType.from_bytes (data.getD 11 0) (data.getD 10 0) (data.getD 17 0) with
  | some media =>
    match Label.try_from model media with
    | .error msg => .error (.InvalidLabel msg)
    | .ok l =>
      .ok { error_flags := from_bits_truncate (data.getD 8 0 + 256 * data.getD 9 0)
            label := some l
            status_type := StatusType.fromByte (data.getD 18 0)
            phase_type := PhaseType.fromByte (data.getD 19 0)
            notification := Notification.from_byte (data.getD 22 0) }
  | none =>
    .ok { error_flags := from_bits_truncate (data.getD 8 0 + 256 * data.getD 9 0)
          label := none
          status_type := StatusType.fromByte (data.getD 18 0)
          phase_type := PhaseType.fromByte (data.getD 19 0)
          notification := Notification.from_byte (data.getD 22 0) }

/-- Source `Printer::read_status_response`: validate the read size, the print
head mark and the header length byte, in this order, then decode. -/
def read_status_response (model : Model) (read_bytes : Nat) (data : List Nat) :
    Except StatusError Status :=
  if read_bytes ≠ 32 then .error (.WrongResponseSizeUSB read_bytes)
  else if data.getD 0 0 ≠ 0x80 then .error (.WrongPrintHeadMark (data.getD 0 0))
  else if data.getD 1 0 ≠ 0x20 then .error (.WrongResponseSizeHeader (data.getD 1 0))
  else decode_status model data

/-! ## Print job encoder (`src/printer/print.rs`) -/

/-- Source `print::PrintPriority`. -/
inductive PrintPriority
  | Quality
  | Speed
deriving DecidableEq

/-- Source `print::PrintConfig`. -/
structure PrintConfig where
  priority : PrintPriority
  auto_cut : Bool
  high_res : Bool
  invert : Bool
deriving DecidableEq

/-- Source `Default for PrintConfig`. -/
def PrintConfig.default : PrintConfig :=
  { priority := .Quality, auto_cut := true, high_res := false, invert := false }

/-- Alias so the `StatusError` payload type stays referable inside the
`PrintError` declaration, whose own constructor shadows the name. -/
abbrev StatusErrorTy := StatusError

/-- Source `print::Error` (exported as `PrintError`).  As for `StatusError`,
the USB transport variant has no pure counterpart. -/
inductive PrintError
  | StatusError (inner : StatusErrorTy)
  | StatusErrorFlags (flags : Nat)
  | NoMedia
  | WrongImageDimensions (image_width image_height label_width : Nat)
      (label_length : Option Nat)
deriving DecidableEq

/-- A greyscale image: `width`/`height` as reported by the `image`
crate, `rows` the per-row luma bytes (top to bottom). -/
structure GrayImage where
  width : Nat
  height : Nat
  rows : List (List Nat)
deriving DecidableEq

/-- Source `BitWriter`: `written` are the bytes the writer has moved past,
`output` the remaining suffix of the line buffer (its head is the byte
currently written into), `bit_idx` the next bit position inside that
head byte. -/
structure BitWriter where
  written : List Nat
  output : List Nat
  bit_idx : Nat
deriving DecidableEq

/-- Source `BitWriter::write_bit`.  `self.output[0]` on an exhausted buffer is
an out-of-bounds index — a panic, modelled as `none`. -/
def BitWriter.write_bit (bw : BitWriter) (bit : Bool) : Option BitWriter :=
  match bw.output with
  | [] => none
  | c :: rest =>
    let c' := c ||| ((if bit then 1 else 0) <<< bw.bit_idx)
    if bw.bit_idx = 0 then
      some { written := bw.written ++ [c'], output := rest, bit_idx := 7 }
    else
      some { written := bw.written, output := c' :: rest, bit_idx := bw.bit_idx - 1 }

/-- Iterated `write_bit`. -/
def writeBits (bw : BitWriter) : List Bool → Option BitWriter
  | [] => some bw
  | b :: rest => (bw.write_bit b).bind (fun bw' => writeBits bw' rest)

/-- The bit sequence the row loop of `Printer::print` feeds into the
writer for one row's pixels: the row sampled back to front, a bit set
when the luma is below `0x80`, XORed with the inversion flag. -/
def rowBits (row : List Nat) (invert : Bool) : List Bool :=
  row.reverse.map (fun p => decide (p < 0x80) != invert)

/-- One row of the line payload: a zeroed buffer of `lineWidth` bytes,
into which first `margin` zero bits and then the pixel bits are packed
MSB-first.  `none` models the `write_bit` panic on overflow. -/
def encodeLine (lineWidth margin : Nat) (row : List Nat) (invert : Bool) :
    Option (List Nat) :=
  let bits := List.replicate margin false ++ rowBits row invert
  (writeBits { written := [], output := List.replicate lineWidth 0, bit_idx := 7 } bits).map
    (fun bw => bw.written ++ bw.output)

/-- The per-row raster line commands: 3-byte header (`0x67`, `0x00`,
line width in bytes) followed by the packed payload. -/
def encodeLines (lineWidth margin : Nat) (invert : Bool) :
    List (List Nat) → Option (List (List Nat))
  | [] => some []
  | row :: rest =>
    match encodeLine lineWidth margin row invert with
    | none => none
    | some payload =>
      match encodeLines lineWidth margin invert rest with
      | none => none
      | some cmds => some (([0x67, 0x00, lineWidth] ++ payload) :: cmds)

/-- The 3-byte status request command written by `Printer::request_status`. -/
def statusRequestCmd : List Nat := [0x1b, 0x69, 0x53]

/-- Source `u16::to_le_bytes`. -/
def u16LeBytes (v : Nat) : List Nat := [v % 256, v / 256 % 256]

/-- Source `u32::to_le_bytes`. -/
def u32LeBytes (v : Nat) : List Nat :=
  [v % 256, v / 2 ^ 8 % 256, v / 2 ^ 16 % 256, v / 2 ^ 24 % 256]

/-- Source `From<StatusError> for print::Error`; with the transport variant
outside the embedding, every remaining status error maps to
`StatusError`. -/
def PrintError.fromStatusError (e : StatusErrorTy) : PrintError := .StatusError e

/-- The `label_length` binding of `Printer::print`: the label's
printable length with high-resolution mode doubling the vertical dot
count (continuous labels have none). -/
def expectedLength (label : Label) (high_res : Bool) : Option Nat :=
  label.printable_dots_length.map (fun l => if high_res then 2 * l else l)

/-- Source `Printer::print`.  Pure rendition: the device's answer to the
status request is the input `(read_bytes, data)`; the result pairs the
full ordered list of byte sequences written to the device with the
outcome.  `none` models a panic of the row bit writer.  The
`VALIDATE_KIND | VALIDATE_WIDTH | VALIDATE_LENGTH | RECOVER` print-info
flags are the constant `0x8E`. -/
def Printer.print (model : Model) (cfg : PrintConfig) (read_bytes : Nat)
    (data : List Nat) (image : GrayImage) :
    Option (List (List Nat) × Except PrintError Unit) :=
  match read_status_response model read_bytes data with
  | .error e => some ([statusRequestCmd], .error (PrintError.fromStatusError e))
  | .ok status =>
    if status.error_flags ≠ 0 then
      some ([statusRequestCmd], .error (.StatusErrorFlags status.error_flags))
    else
      match status.label with
      | none => some ([statusRequestCmd], .error .NoMedia)
      | some label =>
        let label_width := label.printable_dots_width
        let label_length := expectedLength label cfg.high_res
        if (label_width != image.width)
            || label_length.elim false (fun l => l != image.height) then
          some ([statusRequestCmd],
            .error (.WrongImageDimensions image.width image.height label_width label_length))
        else
          let info_flags := 0x8E ||| (if cfg.priority = PrintPriority.Quality then 0x40 else 0)
          let infoCmd := [0x1b, 0x69, 0x7a, info_flags, label.ty.as_bytes.1,
            label.ty.as_bytes.2.1, label.ty.as_bytes.2.2] ++ u32LeBytes image.height
            ++ [0x00, 0x00]
          let modeCmd := [0x1b, 0x69, 0x4d, if cfg.auto_cut then 0x40 else 0x00]
          let cutRateCmds : List (List Nat) :=
            if cfg.auto_cut then [[0x1b, 0x69, 0x41, 0x01]] else []
          let expandedCmd := [0x1b, 0x69, 0x4b, 0x10 ||| (if cfg.high_res then 0x40 else 0)]
          let feedCmd := [0x1b, 0x69, 0x64] ++ u16LeBytes label.margin_dots_length
          match encodeLines model.line_width label.margin_dots_right cfg.invert image.rows with
          | none => none
          | some lineCmds =>
            some ([statusRequestCmd, [0x1B, 0x69, 0x61, 0x01], infoCmd, modeCmd]
              ++ cutRateCmds ++ [expandedCmd, feedCmd, [0x4d, 0x00]]
              ++ lineCmds ++ [[0x1a]], .ok ())

/-! ## Scale response parsing (`src/weight/mod.rs`)

The parsing tail of `Scales::perform_io`, from the 45-byte weight
response to the published reading.  The pipeline is embedded in full:
`str::from_utf8` as a complete UTF-8 well-formedness decoder,
`str::trim` over the Unicode `White_Space` set, and `str::parse::<f64>`
with its whole grammar — an optional sign, the ASCII-case-insensitive
literals `inf` / `infinity` / `nan`, or decimal digits with optional
fraction and exponent mapped to the correctly rounded binary64 value
(round to nearest, ties to even) that the source's parse is documented
to return.  Readings are binary64 values: finite ones are carried
exactly as rationals, plus the two infinities and NaN. -/

/-- Source `weight::Error`.  `IOErr` stands for the source's `IO(String)`
transport variant. -/
inductive ScaleError
  | NotOpenedYet
  | SerialPort
  | IOErr
  | FailedToParse
deriving DecidableEq

/-- ASCII decimal digit. -/
def isDigit (c : Nat) : Bool := 0x30 ≤ c && c ≤ 0x39

/-- Value of a digit run. -/
def digitsToNat (cs : List Nat) : Nat := cs.foldl (fun a c => 10 * a + (c - 0x30)) 0

/-- Source `char::is_whitespace` on a Unicode scalar value: the Unicode
`White_Space` property, the exact set `str::trim` strips from both
ends. -/
def char_is_whitespace (c : Nat) : Bool :=
  decide ((0x09 ≤ c ∧ c ≤ 0x0D) ∨ c = 0x20 ∨ c = 0x85 ∨ c = 0xA0 ∨ c = 0x1680 ∨
    (0x2000 ≤ c ∧ c ≤ 0x200A) ∨ c = 0x2028 ∨ c = 0x2029 ∨ c = 0x202F ∨ c = 0x205F ∨
    c = 0x3000)

/-- Source `str::trim`: drop `White_Space` scalar values from both ends. -/
def strTrim (cs : List Nat) : List Nat :=
  ((cs.dropWhile char_is_whitespace).reverse.dropWhile char_is_whitespace).reverse

/-- Source `str::from_utf8` followed by iteration over `char`s: decode a
byte list as UTF-8 into its Unicode scalar values, `none` exactly on the
inputs `str::from_utf8` rejects (stray or missing continuation bytes,
overlong forms, surrogates, values above `0x10FFFF`). -/
def utf8Decode : List Nat → Option (List Nat)
  | [] => some []
  | b0 :: rest =>
    if b0 ≤ 0x7F then
      (utf8Decode rest).map fun cs => b0 :: cs
    else if 0xC2 ≤ b0 ∧ b0 ≤ 0xDF then
      match rest with
      | b1 :: rest1 =>
        if 0x80 ≤ b1 ∧ b1 ≤ 0xBF then
          (utf8Decode rest1).map fun cs => ((b0 - 0xC0) * 0x40 + (b1 - 0x80)) :: cs
        else none
      | [] => none
    else if 0xE0 ≤ b0 ∧ b0 ≤ 0xEF then
      match rest with
      | b1 :: b2 :: rest2 =>
        if (if b0 = 0xE0 then 0xA0 ≤ b1 ∧ b1 ≤ 0xBF
            else if b0 = 0xED then 0x80 ≤ b1 ∧ b1 ≤ 0x9F
            else 0x80 ≤ b1 ∧ b1 ≤ 0xBF) ∧ 0x80 ≤ b2 ∧ b2 ≤ 0xBF then
          (utf8Decode rest2).map fun cs =>
            ((b0 - 0xE0) * 0x1000 + (b1 - 0x80) * 0x40 + (b2 - 0x80)) :: cs
        else none
      | _ => none
    else if 0xF0 ≤ b0 ∧ b0 ≤ 0xF4 then
      match rest with
      | b1 :: b2 :: b3 :: rest3 =>
        if (if b0 = 0xF0 then 0x90 ≤ b1 ∧ b1 ≤ 0xBF
            else if b0 = 0xF4 then 0x80 ≤ b1 ∧ b1 ≤ 0x8F
            else 0x80 ≤ b1 ∧ b1 ≤ 0xBF) ∧ 0x80 ≤ b2 ∧ b2 ≤ 0xBF ∧
            0x80 ≤ b3 ∧ b3 ≤ 0xBF then
          (utf8Decode rest3).map fun cs =>
            ((b0 - 0xF0) * 0x40000 + (b1 - 0x80) * 0x1000 + (b2 - 0x80) * 0x40 +
              (b3 - 0x80)) :: cs
        else none
      | _ => none
    else none

/-- An IEEE-754 binary64 value, the type of the source's `f64` reading: a
finite value (carried exactly as a rational), an infinity, or a NaN.
The two zero payloads `0.0` and `-0.0` are identified: they compare
equal and no code path inspects the sign bit. -/
inductive F64
  | finite (q : ℚ)
  | inf
  | neginf
  | nan
deriving DecidableEq

/-- Negation of a binary64 value; the source's multiplication by `-1.0`
is exactly this, and its multiplication by `1.0` is the identity. -/
def f64Neg : F64 → F64
  | .finite q => .finite (-q)
  | .inf => .neginf
  | .neginf => .inf
  | .nan => .nan

/-- Fueled floor base-2 logarithm; with fuel at least `n` it halves `n`
down to `1`. -/
def log2fuel : Nat → Nat → Nat
  | 0, _ => 0
  | fuel + 1, n => if 2 ≤ n then log2fuel fuel (n / 2) + 1 else 0

/-- Floor base-2 logarithm, `⌊log₂ n⌋` for `n ≥ 1`. -/
def natLog2 (n : Nat) : Nat := log2fuel n n

/-- Ceiling base-2 logarithm: the least `k` with `c ≤ 2 ^ k`, for `c ≥ 1`. -/
def natClog2 (c : Nat) : Nat := if c ≤ 1 then 0 else natLog2 (c - 1) + 1

/-- Round `num / den` (with `den > 0`) to the nearest integer, ties to
even. -/
def roundHalfEvenNat (num den : Nat) : Nat :=
  let f := num / den
  let r := num % den
  if 2 * r < den then f
  else if den < 2 * r then f + 1
  else if f % 2 = 0 then f else f + 1

/-- The rational `2 ^ k` for an integer `k`. -/
def qpow2 (k : Int) : ℚ :=
  if 0 ≤ k then (2 : ℚ) ^ k.toNat else ((2 : ℚ) ^ (-k).toNat)⁻¹

/-- Correct rounding of the exact decimal `D * 10 ^ E` (`D ≥ 0`) to IEEE-754
binary64, round to nearest with ties to even — the value `str::parse::<f64>`
is documented to return for a decimal literal.  Values at or above
`2 ^ 1024 - 2 ^ 970` round to infinity; values below the normal range round
on the subnormal grid `2 ^ (-1074)`, down to zero. -/
def roundF64 (D : Nat) (E : Int) : F64 :=
  if D = 0 then F64.finite 0
  else
    let a : Nat := if 0 ≤ E then D * 10 ^ E.toNat else D
    let b : Nat := if 0 ≤ E then 1 else 10 ^ (-E).toNat
    if (2 ^ 1024 - 2 ^ 970) * b ≤ a then F64.inf
    else
      let l : Int :=
        if b ≤ a then (natLog2 (a / b) : Int) else -(natClog2 ((b + a - 1) / a) : Int)
      let e : Int := max (l - 52) (-1074)
      let m := roundHalfEvenNat (a * 2 ^ (-e).toNat) (b * 2 ^ e.toNat)
      F64.finite ((m : ℚ) * qpow2 e)

/-- ASCII lower-casing of a scalar value, as the byte-wise
`eq_ignore_ascii_case` of the `inf` / `nan` literal match uses. -/
def asciiLower (c : Nat) : Nat := if 0x41 ≤ c ∧ c ≤ 0x5A then c + 0x20 else c

/-- The exponent suffix of the source's float grammar: an optional sign,
then at least one digit, consuming the whole remainder. -/
def parseExp (cs : List Nat) : Option Int :=
  let sr : Bool × List Nat :=
    match cs with
    | 0x2B :: r => (false, r)
    | 0x2D :: r => (true, r)
    | _ => (false, cs)
  if sr.2 ≠ [] ∧ sr.2.all isDigit then
    some (if sr.1 then -(digitsToNat sr.2 : Int) else (digitsToNat sr.2 : Int))
  else none

/-- The number form of the source's float grammar:
`digits ['.' digits] [('e'|'E') sign? digits]` with at least one mantissa
digit, consuming the whole string; the exact mantissa and decimal
exponent feed the correctly rounded conversion. -/
def parseNumber (cs : List Nat) : Option F64 :=
  let int_digits := cs.takeWhile isDigit
  let rest1 := cs.dropWhile isDigit
  let fr : List Nat × List Nat :=
    match rest1 with
    | 0x2E :: r => (r.takeWhile isDigit, r.dropWhile isDigit)
    | _ => ([], rest1)
  if int_digits = [] ∧ fr.1 = [] then none
  else
    let D := digitsToNat (int_digits ++ fr.1)
    let E0 : Int := -(fr.1.length : Int)
    match fr.2 with
    | [] => some (roundF64 D E0)
    | c :: r =>
      if c = 0x65 ∨ c = 0x45 then
        match parseExp r with
        | some ex => some (roundF64 D (E0 + ex))
        | none => none
      else none

/-- Source `str::parse::<f64>`: an optional sign, then either a decimal
number with optional fraction and exponent (correctly rounded to
binary64) or one of the ASCII-case-insensitive literals `inf`,
`infinity`, `nan`. -/
def parseF64 (cs : List Nat) : Option F64 :=
  match cs with
  | [] => none
  | _ =>
    let sr : Bool × List Nat :=
      match cs with
      | 0x2B :: r => (false, r)
      | 0x2D :: r => (true, r)
      | _ => (false, cs)
    if sr.2 = [] then none
    else
      let body :=
        match parseNumber sr.2 with
        | some v => some v
        | none =>
          if sr.2.map asciiLower = [0x69, 0x6E, 0x66] ∨
              sr.2.map asciiLower = [0x69, 0x6E, 0x66, 0x69, 0x6E, 0x69, 0x74, 0x79] then
            some F64.inf
          else if sr.2.map asciiLower = [0x6E, 0x61, 0x6E] then some F64.nan
          else none
      body.map fun v => if sr.1 then f64Neg v else v

/-- The response-parsing tail of `Scales::perform_io`: sign byte at
offset 14 (`0x20` positive, `0x2d` negative, anything else a parse
error), then the 6-byte field at offsets 15–20 through `str::from_utf8`,
`str::trim` and `str::parse::<f64>`; the published reading is
`sign * value`. -/
def parse_weight_response (resp : List Nat) : Except ScaleError F64 :=
  if resp.getD 14 0 = 0x20 ∨ resp.getD 14 0 = 0x2d then
    match utf8Decode ((resp.drop 15).take 6) with
    | none => .error .FailedToParse
    | some weight_str =>
      match parseF64 (strTrim weight_str) with
      | none => .error .FailedToParse
      | some weight_kg =>
        .ok (if resp.getD 14 0 = 0x2d then f64Neg weight_kg else weight_kg)
  else .error .FailedToParse

/-! ## Correctness of the bit writer -/

/-- MSB-first bit `i` of a byte buffer: bit `7 - i % 8` of byte
`i / 8` (bytes past the end read as zero). -/
def lineBit (bytes : List Nat) (i : Nat) : Bool :=
  Nat.testBit (bytes.getD (i / 8) 0) (7 - i % 8)

theorem getD_append_of_lt {α : Type _} {l₁ l₂ : List α} {d : α} {n : Nat}
    (h : n < l₁.length) : (l₁ ++ l₂).getD n d = l₁.getD n d := by
  simp [List.getD_eq_getElem?_getD, List.getElem?_append_left h]

theorem getD_append_of_ge {α : Type _} {l₁ l₂ : List α} {d : α} {n : Nat}
    (h : l₁.length ≤ n) : (l₁ ++ l₂).getD n d = l₂.getD (n - l₁.length) d := by
  simp [List.getD_eq_getElem?_getD, List.getElem?_append_right h]

theorem getD_const {α : Type _} {l : List α} {d : α} (h : ∀ x ∈ l, x = d) (i : Nat) :
    l.getD i d = d := by
  induction l generalizing i with
  | nil => simp
  | cons a t ih =>
    cases i with
    | zero => simpa using h a (by simp)
    | succ j => simpa using ih (fun x hx => h x (by simp [hx])) j

theorem getD_eq_of_all {α : Type _} {l : List α} {d v : α} (h : ∀ x ∈ l, x = v)
    {j : Nat} (hj : j < l.length) : l.getD j d = v := by
  rw [List.getD_eq_getElem?_getD, List.getElem?_eq_getElem hj]
  exact h _ (List.getElem_mem hj)

theorem getD_tail_of_pos {l : List Nat} {i : Nat} (h : 1 ≤ i) :
    l.getD i 0 = l.tail.getD (i - 1) 0 := by
  cases l with
  | nil => simp
  | cons a t =>
    obtain ⟨j, rfl⟩ := Nat.exists_eq_add_of_le h
    simp [Nat.add_comm 1 j]

/-- Writing one bit into the head byte of the remaining buffer changes
exactly the line bit at the writer's current position. -/
theorem lineBit_write (done : List Nat) (c : Nat) (out' : List Nat) (k : Nat)
    (hk : k ≤ 7) (hclean : Nat.testBit c k = false) (b : Bool) (p : Nat) :
    lineBit (done ++ (c ||| ((if b then 1 else 0) <<< k)) :: out') p =
      (if p = 8 * done.length + (7 - k) then b
       else lineBit (done ++ c :: out') p) := by
  have hdm := Nat.div_add_mod p 8
  have hm : p % 8 < 8 := Nat.mod_lt _ (by omega)
  have hbv : (if b then 1 else 0) = b.toNat := by cases b <;> rfl
  rw [hbv]
  rcases Nat.lt_trichotomy (p / 8) done.length with hq | hq | hq
  · rw [if_neg (show ¬p = 8 * done.length + (7 - k) by omega)]
    simp only [lineBit]
    rw [getD_append_of_lt hq, getD_append_of_lt hq]
  · have hq' : done.length ≤ p / 8 := Nat.le_of_eq hq.symm
    have e1 : (done ++ (c ||| (b.toNat <<< k)) :: out').getD (p / 8) 0
        = c ||| (b.toNat <<< k) := by
      rw [getD_append_of_ge hq', hq, Nat.sub_self, List.getD_cons_zero]
    have e2 : (done ++ c :: out').getD (p / 8) 0 = c := by
      rw [getD_append_of_ge hq', hq, Nat.sub_self, List.getD_cons_zero]
    simp only [lineBit]
    rw [e1, e2]
    by_cases ht : 7 - p % 8 = k
    · rw [if_pos (show p = 8 * done.length + (7 - k) by omega), ht]
      cases b <;>
        simp [Nat.testBit_or, Nat.testBit_shiftLeft, hclean, Nat.testBit_bool_to_nat]
    · rw [if_neg (show ¬p = 8 * done.length + (7 - k) by omega)]
      rcases Nat.lt_or_ge (7 - p % 8) k with hlt | hge
      · simp [Nat.testBit_or, Nat.testBit_shiftLeft, Nat.not_le.mpr hlt]
      · have hnz : ¬(7 - p % 8 - k = 0) := by omega
        simp [Nat.testBit_or, Nat.testBit_shiftLeft, Nat.testBit_bool_to_nat, hnz]
  · have hq' : done.length ≤ p / 8 := by omega
    have hpos : 1 ≤ p / 8 - done.length := by omega
    rw [if_neg (show ¬p = 8 * done.length + (7 - k) by omega)]
    simp only [lineBit]
    rw [getD_append_of_ge hq', getD_append_of_ge hq',
      getD_tail_of_pos hpos, getD_tail_of_pos hpos, List.tail_cons, List.tail_cons]

/-- Gluing step for the bit-writer induction: the one-bit update merged
into the characterization of the remaining bits. -/
theorem if_merge (pos : Nat) (b old : Bool) (rest : List Bool) (p : Nat) :
    (if p < pos + 1 then (if p = pos then b else old)
     else rest.getD (p - (pos + 1)) false) =
      (if p < pos then old else (b :: rest).getD (p - pos) false) := by
  rcases Nat.lt_trichotomy p pos with hp | hp | hp
  · rw [if_pos (show p < pos + 1 by omega), if_neg (show ¬p = pos by omega), if_pos hp]
  · rw [if_pos (show p < pos + 1 by omega), if_pos hp, if_neg (show ¬p < pos by omega),
      hp, Nat.sub_self, List.getD_cons_zero]
  · rw [if_neg (show ¬p < pos + 1 by omega), if_neg (show ¬p < pos by omega),
      show p - pos = (p - (pos + 1)) + 1 by omega, List.getD_cons_succ]

/-- Main bit-writer invariant: from a well-formed state (current byte
clean at and below the cursor, untouched bytes zero) with enough
capacity, `writeBits` succeeds and the final buffer holds the old
contents before the cursor position and the written bits from it on. -/
theorem writeBits_spec : ∀ (bits : List Bool) (done out : List Nat) (k : Nat),
    k ≤ 7 →
    (∀ t, t ≤ k → Nat.testBit (out.getD 0 0) t = false) →
    (∀ b ∈ out.tail, b = 0) →
    bits.length + (7 - k) ≤ 8 * out.length →
    ∃ bw', writeBits ⟨done, out, k⟩ bits = some bw' ∧
      ∀ p, lineBit (bw'.written ++ bw'.output) p =
        (if p < 8 * done.length + (7 - k) then lineBit (done ++ out) p
         else bits.getD (p - (8 * done.length + (7 - k))) false)
  | [], done, out, k, hk, hclean, htail, _ => by
    refine ⟨⟨done, out, k⟩, rfl, fun p => ?_⟩
    have hdm := Nat.div_add_mod p 8
    have hm : p % 8 < 8 := Nat.mod_lt _ (by omega)
    by_cases hp : p < 8 * done.length + (7 - k)
    · rw [if_pos hp]
    · rw [if_neg hp, List.getD_nil]
      have hq : done.length ≤ p / 8 := by omega
      simp only [lineBit]
      rw [getD_append_of_ge hq]
      rcases Nat.eq_or_lt_of_le hq with hq' | hq'
      · rw [← hq', Nat.sub_self]
        exact hclean _ (by omega)
      · rw [getD_tail_of_pos (by omega), getD_const htail]
        simp
  | b :: rest, done, out, k, hk, hclean, htail, hcap => by
    match out with
    | [] => simp only [List.length_cons, List.length_nil] at hcap; omega
    | c :: out' =>
      have hc0 : out'.getD 0 0 = 0 := by
        cases out' with
        | nil => rfl
        | cons d t => exact htail d (by simp)
      have htail' : ∀ x ∈ out'.tail, x = 0 := fun x hx =>
        htail x (List.mem_of_mem_tail hx)
      have hcleanc : ∀ t, t ≤ k → Nat.testBit c t = false := fun t ht => by
        simpa using hclean t ht
      by_cases hk0 : k = 0
      · subst hk0
        obtain ⟨bw', hw, hchar⟩ :=
          writeBits_spec rest (done ++ [c ||| ((if b then 1 else 0) <<< 0)]) out' 7
            (by omega)
            (fun t _ => by rw [hc0]; simp)
            htail'
            (by simp only [List.length_cons] at hcap; simp; omega)
        refine ⟨bw', ?_, fun p => ?_⟩
        · rw [writeBits, BitWriter.write_bit]
          simpa using hw
        · have hchar' := hchar p
          rw [show (done ++ [c ||| ((if b then 1 else 0) <<< 0)]) ++ out' =
              done ++ (c ||| ((if b then 1 else 0) <<< 0)) :: out' by simp] at hchar'
          rw [show 8 * (done ++ [c ||| ((if b then 1 else 0) <<< 0)]).length + (7 - 7) =
              (8 * done.length + (7 - 0)) + 1 by simp; omega] at hchar'
          rw [hchar',
            lineBit_write done c out' 0 (by omega) (hcleanc 0 (by omega)) b p,
            if_merge]
      · obtain ⟨bw', hw, hchar⟩ :=
          writeBits_spec rest done ((c ||| ((if b then 1 else 0) <<< k)) :: out') (k - 1)
            (by omega)
            (fun t ht => by
              rw [List.getD_cons_zero, Nat.testBit_or, hcleanc t (by omega)]
              rw [show (if b then 1 else 0) = b.toNat by cases b <;> rfl,
                Nat.testBit_shiftLeft]
              simp [Nat.not_le.mpr (show t < k by omega)])
            (by simpa using htail)
            (by simp only [List.length_cons] at hcap ⊢; omega)
        refine ⟨bw', ?_, fun p => ?_⟩
        · rw [writeBits, BitWriter.write_bit]
          simp only [if_neg hk0]
          simpa using hw
        · have hchar' := hchar p
          rw [show 8 * done.length + (7 - (k - 1)) =
              (8 * done.length + (7 - k)) + 1 by omega] at hchar'
          rw [hchar',
            lineBit_write done c out' k hk (hcleanc k (by omega)) b p,
            if_merge]

/-- On the freshly zeroed line buffer, the final buffer bits are
exactly the written bit sequence, padded with zeros. -/
theorem writeBits_zeroed (bits : List Bool) (n : Nat) (hcap : bits.length ≤ 8 * n) :
    ∃ bw', writeBits ⟨[], List.replicate n 0, 7⟩ bits = some bw' ∧
      ∀ p, lineBit (bw'.written ++ bw'.output) p = bits.getD p false := by
  obtain ⟨bw', hw, hchar⟩ :=
    writeBits_spec bits [] (List.replicate n 0) 7 (by omega)
      (fun t _ => by
        have h0 : (List.replicate n 0).getD 0 0 = 0 := by cases n <;> simp
        rw [h0]; simp)
      (fun b hb => List.eq_of_mem_replicate (List.mem_of_mem_tail hb))
      (by simpa using hcap)
  exact ⟨bw', hw, fun p => by simpa using hchar p⟩

/-- The bit writer runs out of buffer (and the source panics) as soon
as more bits are written than the remaining capacity holds. -/
theorem writeBits_overflow : ∀ (bits : List Bool) (done out : List Nat) (k : Nat),
    k ≤ 7 → 8 * out.length - (7 - k) < bits.length →
    writeBits ⟨done, out, k⟩ bits = none
  | [], _, _, _, _, hcap => absurd hcap (by simp only [List.length_nil]; omega)
  | b :: rest, done, out, k, hk, hcap => by
    match out with
    | [] => rfl
    | c :: out' =>
      by_cases hk0 : k = 0
      · subst hk0
        rw [writeBits, BitWriter.write_bit]
        simpa using
          writeBits_overflow rest (done ++ [c ||| ((if b then 1 else 0) <<< 0)]) out' 7
            (by omega) (by simp only [List.length_cons] at hcap; omega)
      · rw [writeBits, BitWriter.write_bit]
        simp only [if_neg hk0]
        simpa using
          writeBits_overflow rest done ((c ||| ((if b then 1 else 0) <<< k)) :: out')
            (k - 1) (by omega)
            (by simp only [List.length_cons] at hcap ⊢; omega)

/-- Lemma: `encodeLine` succeeds whenever margin plus row width fit into the
line buffer, and the payload bits are the margin zeros followed by the
reversed, thresholded, possibly inverted pixel bits. -/
theorem encodeLine_spec (lineWidth margin : Nat) (row : List Nat) (invert : Bool)
    (hcap : margin + row.length ≤ 8 * lineWidth) :
    ∃ payload, encodeLine lineWidth margin row invert = some payload ∧
      ∀ p, lineBit payload p =
        (List.replicate margin false ++ rowBits row invert).getD p false := by
  obtain ⟨bw', hw, hchar⟩ :=
    writeBits_zeroed (List.replicate margin false ++ rowBits row invert) lineWidth
      (by simp [rowBits]; omega)
  exact ⟨bw'.written ++ bw'.output, by simp [encodeLine, hw], hchar⟩

/-- Lemma: `encodeLine` fails — the source's `BitWriter` panics — when margin
plus row width exceed the line buffer capacity. -/
theorem encodeLine_overflow (lineWidth margin : Nat) (row : List Nat) (invert : Bool)
    (hcap : 8 * lineWidth < margin + row.length) :
    encodeLine lineWidth margin row invert = none := by
  have hw :=
    writeBits_overflow (List.replicate margin false ++ rowBits row invert) []
      (List.replicate lineWidth 0) 7 (by omega) (by simp [rowBits]; omega)
  simp [encodeLine, hw]

/-! ## Row payload properties -/

theorem rowBits_length (row : List Nat) (invert : Bool) :
    (rowBits row invert).length = row.length := by
  simp [rowBits]

theorem rowBits_all_dark {row : List Nat} (hdark : ∀ px ∈ row, px < 0x80) :
    ∀ x ∈ rowBits row false, x = true := by
  intro x hx
  simp only [rowBits, List.mem_map] at hx
  obtain ⟨p, hp, rfl⟩ := hx
  have hlt : p < 0x80 := hdark p (List.mem_reverse.mp hp)
  simp [hlt]

/-- Element-wise: the inverted threshold bit is the complement of the
plain one. -/
theorem map_getD_bang : ∀ (l : List Nat) (j : Nat), j < l.length →
    (l.map (fun p => decide (p < 0x80) != true)).getD j false =
      !((l.map (fun p => decide (p < 0x80) != false)).getD j false)
  | [], j, h => by simp at h
  | a :: t, 0, _ => by cases hd : decide (a < 0x80) <;> simp [hd]
  | a :: t, j + 1, h => by
    simpa using map_getD_bang t j (by simpa using h)

/-- Claim C4 (supporting general form): for a label resolved from the
geometry tables whose margin and width fit the model's line buffer, an
all-dark row encoded without inversion yields a payload whose first
`margin_dots_right` bits are zero and whose following
`printable_dots_width` bits are all one. -/
theorem print_all_dark_row_payload (model : Model) (ty : LabelType) (label : Label)
    (row : List Nat)
    (hres : Label.try_from model ty = .ok label)
    (hlen : row.length = label.printable_dots_width)
    (hdark : ∀ px ∈ row, px < 0x80)
    (hcap : label.margin_dots_right + label.printable_dots_width ≤
      8 * model.line_width) :
    ∃ payload,
      encodeLine model.line_width label.margin_dots_right row false = some payload ∧
      (∀ i, i < label.margin_dots_right → lineBit payload i = false) ∧
      (∀ j, j < label.printable_dots_width →
        lineBit payload (label.margin_dots_right + j) = true) := by
  obtain ⟨payload, henc, hchar⟩ :=
    encodeLine_spec model.line_width label.margin_dots_right row false (by omega)
  refine ⟨payload, henc, fun i hi => ?_, fun j hj => ?_⟩
  · rw [hchar i, getD_append_of_lt (by simpa using hi)]
    exact getD_const (fun x hx => List.eq_of_mem_replicate hx) i
  · rw [hchar _,
      getD_append_of_ge (by simp only [List.length_replicate]; omega),
      show label.margin_dots_right + j -
        (List.replicate label.margin_dots_right false).length = j by simp]
    exact getD_eq_of_all (rowBits_all_dark hdark)
      (by rw [rowBits_length, hlen]; exact hj)

/-- Claim C8: for every row and every resolved label fitting the line
buffer, encoding with `invert = true` complements exactly the pixel
bits of the `invert = false` payload, while the right-margin padding
bits stay zero in both. -/
theorem encode_row_invert_complement (model : Model) (ty : LabelType) (label : Label)
    (row : List Nat)
    (hres : Label.try_from model ty = .ok label)
    (hlen : row.length = label.printable_dots_width)
    (hcap : label.margin_dots_right + label.printable_dots_width ≤
      8 * model.line_width) :
    ∃ payloadPlain payloadInv,
      encodeLine model.line_width label.margin_dots_right row false = some payloadPlain ∧
      encodeLine model.line_width label.margin_dots_right row true = some payloadInv ∧
      (∀ j, j < label.printable_dots_width →
        lineBit payloadInv (label.margin_dots_right + j) =
          !(lineBit payloadPlain (label.margin_dots_right + j))) ∧
      (∀ i, i < label.margin_dots_right →
        lineBit payloadPlain i = false ∧ lineBit payloadInv i = false) := by
  obtain ⟨p0, henc0, hchar0⟩ :=
    encodeLine_spec model.line_width label.margin_dots_right row false (by omega)
  obtain ⟨p1, henc1, hchar1⟩ :=
    encodeLine_spec model.line_width label.margin_dots_right row true (by omega)
  refine ⟨p0, p1, henc0, henc1, fun j hj => ?_, fun i hi => ?_⟩
  · rw [hchar0 _, hchar1 _,
      getD_append_of_ge (by simp only [List.length_replicate]; omega),
      getD_append_of_ge (by simp only [List.length_replicate]; omega),
      show label.margin_dots_right + j -
        (List.replicate label.margin_dots_right false).length = j by simp]
    exact map_getD_bang row.reverse j (by rw [List.length_reverse, hlen]; exact hj)
  · rw [hchar0 i, hchar1 i, getD_append_of_lt (by simpa using hi),
      getD_append_of_lt (by simpa using hi)]
    exact ⟨getD_const (fun x hx => List.eq_of_mem_replicate hx) i,
      getD_const (fun x hx => List.eq_of_mem_replicate hx) i⟩

/-! ## Concrete device inputs used to exercise the theorems -/

/-- Valid 32-byte status frame: head mark `0x80`, header size `0x20`,
no error flags, continuous 62 mm media loaded. -/
def frame62 : List Nat :=
  [0x80, 0x20, 0, 0, 0, 0, 0, 0,
   0, 0, 62, 0x0a, 0, 0, 0, 0,
   0, 0, 0, 0, 0, 0, 0, 0,
   0, 0, 0, 0, 0, 0, 0, 0]

/-- Valid frame with no media loaded (media type byte `0`). -/
def frameNoMedia : List Nat :=
  [0x80, 0x20, 0, 0, 0, 0, 0, 0,
   0, 0, 0, 0, 0, 0, 0, 0,
   0, 0, 0, 0, 0, 0, 0, 0,
   0, 0, 0, 0, 0, 0, 0, 0]

/-- Frame with a wrong head mark byte (`0x7f`). -/
def frameBadMark : List Nat :=
  [0x7f, 0x20, 0, 0, 0, 0, 0, 0,
   0, 0, 62, 0x0a, 0, 0, 0, 0,
   0, 0, 0, 0, 0, 0, 0, 0,
   0, 0, 0, 0, 0, 0, 0, 0]

/-- Frame with a wrong header size byte (`0x21`). -/
def frameBadHeader : List Nat :=
  [0x80, 0x21, 0, 0, 0, 0, 0, 0,
   0, 0, 62, 0x0a, 0, 0, 0, 0,
   0, 0, 0, 0, 0, 0, 0, 0,
   0, 0, 0, 0, 0, 0, 0, 0]

/-- Valid frame, continuous 62 mm media, error byte 1 = `0x01`
(the defined `NO_MEDIA` flag bit). -/
def frameFlag1 : List Nat :=
  [0x80, 0x20, 0, 0, 0, 0, 0, 0,
   0x01, 0, 62, 0x0a, 0, 0, 0, 0,
   0, 0, 0, 0, 0, 0, 0, 0,
   0, 0, 0, 0, 0, 0, 0, 0]

/-- Valid frame, no media, error byte 1 = `0x08`: bit 3 is set in the
16-bit little-endian error value but is not a declared flag. -/
def frameBit3 : List Nat :=
  [0x80, 0x20, 0, 0, 0, 0, 0, 0,
   0x08, 0, 0, 0, 0, 0, 0, 0,
   0, 0, 0, 0, 0, 0, 0, 0,
   0, 0, 0, 0, 0, 0, 0, 0]

/-- Valid frame reporting continuous 102 mm media — a geometry-table
entry meant for wide-head models only. -/
def frame102 : List Nat :=
  [0x80, 0x20, 0, 0, 0, 0, 0, 0,
   0, 0, 102, 0x0a, 0, 0, 0, 0,
   0, 0, 0, 0, 0, 0, 0, 0,
   0, 0, 0, 0, 0, 0, 0, 0]

/-- An 1164×1 all-dark greyscale image (the exact width the 102 mm label
resolves to). -/
def img1164 : GrayImage := ⟨1164, 1, [List.replicate 1164 0]⟩

/-- A 100×1 all-dark image, deliberately narrower than any label. -/
def img100 : GrayImage := ⟨100, 1, [List.replicate 100 0]⟩

/-- Minimal 1×1 image. -/
def img1x1 : GrayImage := ⟨1, 1, [[0]]⟩

/-- The 45-byte scale response: sign byte `0x2d` at offset 14, digit field
`"012.50"` at offsets 15–20. -/
def resp4550 : List Nat :=
  [0, 0, 0, 0, 0, 0, 0, 0, 0, 0, 0, 0, 0, 0,
   0x2d, 0x30, 0x31, 0x32, 0x2e, 0x35, 0x30,
   0, 0, 0, 0, 0, 0, 0, 0, 0, 0, 0, 0,
   0, 0, 0, 0, 0, 0, 0, 0, 0, 0, 0, 0]

/-! ## C6: status-response validation -/

/-- Claim C6: status-response validation checks exactly three conditions
in this fixed order — read size 32, head mark `0x80`, header length
`0x20` — each failing with its own distinct error variant carrying the
offending value, and decoding happens only when all three pass. -/
theorem read_status_response_validation_order (model : Model) (read_bytes : Nat)
    (data : List Nat) :
    (read_bytes ≠ 32 →
      read_status_response model read_bytes data =
        .error (.WrongResponseSizeUSB read_bytes)) ∧
    (read_bytes = 32 → data.getD 0 0 ≠ 0x80 →
      read_status_response model read_bytes data =
        .error (.WrongPrintHeadMark (data.getD 0 0))) ∧
    (read_bytes = 32 → data.getD 0 0 = 0x80 → data.getD 1 0 ≠ 0x20 →
      read_status_response model read_bytes data =
        .error (.WrongResponseSizeHeader (data.getD 1 0))) ∧
    (read_bytes = 32 → data.getD 0 0 = 0x80 → data.getD 1 0 = 0x20 →
      read_status_response model read_bytes data = decode_status model data) := by
  refine ⟨fun h1 => by unfold read_status_response; rw [if_pos h1],
    fun h1 h2 => by
      unfold read_status_response
      rw [if_neg (by omega), if_pos h2],
    fun h1 h2 h3 => by
      unfold read_status_response
      rw [if_neg (by omega), if_neg (fun hh => hh h2), if_pos h3],
    fun h1 h2 h3 => by
      unfold read_status_response
      rw [if_neg (by omega), if_neg (fun hh => hh h2), if_neg (fun hh => hh h3)]⟩

/-- Witness for C6: all four branches exercised on concrete frames. -/
theorem read_status_response_validation_order_witness :
    read_status_response .BrotherQL500 31 frame62 =
      .error (.WrongResponseSizeUSB 31) ∧
    read_status_response .BrotherQL500 32 frameBadMark =
      .error (.WrongPrintHeadMark 0x7f) ∧
    read_status_response .BrotherQL500 32 frameBadHeader =
      .error (.WrongResponseSizeHeader 0x21) ∧
    read_status_response .BrotherQL500 32 frame62 =
      decode_status .BrotherQL500 frame62 :=
  ⟨(read_status_response_validation_order .BrotherQL500 31 frame62).1 (by decide),
    (read_status_response_validation_order .BrotherQL500 32 frameBadMark).2.1
      rfl (by decide),
    (read_status_response_validation_order .BrotherQL500 32 frameBadHeader).2.2.1
      rfl (by decide) (by decide),
    (read_status_response_validation_order .BrotherQL500 32 frame62).2.2.2
      rfl (by decide) (by decide)⟩

/-! ## C9: model-name parsing -/

/-- Claim C9 (counterexample): `"ql500"` names a supported model up to
letter case — `"QL500"` parses to it — yet the parse of `"ql500"`
returns the unknown-model error: the parse is not case-tolerant. -/
theorem fromName_not_case_tolerant :
    Model.fromName "QL500" = .ok .BrotherQL500 ∧
    Model.fromName "ql500" = .error "Unknown product name: ql500" :=
  ⟨by decide, by decide⟩

set_option maxHeartbeats 1000000 in
/-- Claim C9 (amended): the parse strips the optional `"Brother"` and
`"QL"` prefixes case-sensitively and succeeds with model `m` exactly
when the remainder is `m`'s designation; every other string fails. -/
theorem fromName_characterization (s : String) (m : Model) :
    Model.fromName s = .ok m ↔
      stripPre "QL" (stripPre "Brother" s) = m.designation := by
  simp only [Model.fromName]
  split_ifs with h1 h2 h3 h4 h5 h6 h7 h8 h9 h10 <;>
    cases m <;>
    simp_all only [Model.designation, Except.ok.injEq, reduceCtorEq, iff_false,
      iff_true, ne_eq] <;>
    try decide

/-- Witness for the amended C9. -/
theorem fromName_characterization_witness :
    Model.fromName "BrotherQL1060N" = .ok .BrotherQL1060N :=
  (fromName_characterization "BrotherQL1060N" .BrotherQL1060N).mpr (by decide)

/-! ## C1 / C2: the wide-only geometry entries on narrow-head models -/

/-- Claim C2 (code slip, evaluated): the resolver accepts the wide-only
102 mm entry for the narrow-head QL-500 and returns a label whose
printable width 1164 exceeds `8 × line_width = 720` dots (and a
fortiori `2 × 56 + 1164 > 720`), violating the claimed invariant. -/
theorem try_from_wide_only_breaks_invariant :
    Label.try_from .BrotherQL500 (.Continuous 102) =
      .ok ⟨.Continuous 102, 1164, none, 56, 35⟩ ∧
    8 * Model.line_width .BrotherQL500 = 720 ∧
    ¬(1164 ≤ 8 * Model.line_width .BrotherQL500) ∧
    ¬(2 * 56 + 1164 ≤ 8 * Model.line_width .BrotherQL500) := by decide

set_option maxRecDepth 100000 in
/-- Claim C1 (code slip, evaluated): a status frame reporting continuous
102 mm media on the narrow-head QL-500 passes every pre-flight check of
`print` with a correctly sized 1164-dot-wide image, and the row bit
writer then overflows the 90-byte (720-bit) line buffer:
`BitWriter::write_bit` indexes `output[0]` out of bounds — a panic,
`none` in the embedding. -/
theorem print_panics_on_wide_only_media :
    read_status_response .BrotherQL500 32 frame102 =
      .ok ⟨0, some ⟨.Continuous 102, 1164, none, 56, 35⟩,
        .StatusReply, .Waiting, none⟩ ∧
    Printer.print .BrotherQL500 PrintConfig.default 32 frame102 img1164 = none :=
  ⟨by decide, by decide⟩

/-- Inversion of the continuous table: every successful entry except
the wide-only 102 mm one (printable width 1164) fits the head width of
the kind of model it is served to. -/
theorem continuousEntry_fits (wide : Bool) (w pw m : Nat)
    (h : continuousEntry wide w = .ok (pw, m))
    (hn : pw ≠ 1164 ∨ wide = true) :
    pw ≤ 8 * (if wide then 162 else 90) ∧
    2 * m + pw ≤ 8 * (if wide then 162 else 90) := by
  cases wide <;>
    (unfold continuousEntry at h
     repeat' split at h) <;>
    first
      | exact Bool.noConfusion ‹false = true›
      | (simp only [Except.ok.injEq, Prod.mk.injEq] at h
         obtain ⟨rfl, rfl⟩ := h
         first
           | (constructor <;> norm_num
              done)
           | (rcases hn with h5 | h5
              · exact absurd rfl h5
              · exact Bool.noConfusion h5))
      | simp at h

set_option maxHeartbeats 1600000 in
/-- Inversion of the die-cut table, as for `continuousEntry_fits`. -/
theorem dieCutEntry_fits (wide : Bool) (w l pw pl m : Nat)
    (h : dieCutEntry wide w l = .ok (pw, pl, m))
    (hn : pw ≠ 1164 ∨ wide = true) :
    pw ≤ 8 * (if wide then 162 else 90) ∧
    2 * m + pw ≤ 8 * (if wide then 162 else 90) := by
  cases wide <;>
    (unfold dieCutEntry at h
     repeat' split at h) <;>
    first
      | exact Bool.noConfusion ‹false = true›
      | (simp only [Except.ok.injEq, Prod.mk.injEq] at h
         obtain ⟨rfl, rfl, rfl⟩ := h
         first
           | (constructor <;> norm_num
              done)
           | (rcases hn with h5 | h5
              · exact absurd rfl h5
              · exact Bool.noConfusion h5))
      | simp at h

/-- Supporting lemma: every resolved label except the wide-only 102 mm
entries (printable width 1164) served to a narrow-head model satisfies
the line-width invariant — those entries are the only violating ones. -/
theorem try_from_fits (model : Model) (ty : LabelType) (label : Label)
    (hres : Label.try_from model ty = .ok label)
    (hw : label.printable_dots_width ≠ 1164 ∨ Model.line_width model = 162) :
    label.printable_dots_width ≤ 8 * Model.line_width model ∧
    2 * label.margin_dots_right + label.printable_dots_width ≤
      8 * Model.line_width model := by
  have hlw : Model.line_width model =
      (if (decide (model = Model.BrotherQL1050 ∨ model = Model.BrotherQL1060N) : Bool)
       then 162 else 90) := by
    cases model <;> rfl
  have hcor : Model.line_width model = 162 →
      decide (model = Model.BrotherQL1050 ∨ model = Model.BrotherQL1060N) = true := by
    cases model <;> simp [Model.line_width]
  cases ty with
  | Continuous w =>
    simp only [Label.try_from] at hres
    rcases hE : continuousEntry
        (decide (model = Model.BrotherQL1050 ∨ model = Model.BrotherQL1060N)) w
      with msg | wm
    · rw [hE] at hres
      exact absurd hres (by simp [Except.map])
    · rw [hE] at hres
      simp only [Except.map, Except.ok.injEq] at hres
      subst hres
      rw [hlw]
      exact continuousEntry_fits _ w wm.1 wm.2 (by rw [← hE])
        (hw.imp (fun h1 => h1) hcor)
  | DieCut w l =>
    simp only [Label.try_from] at hres
    rcases hE : dieCutEntry
        (decide (model = Model.BrotherQL1050 ∨ model = Model.BrotherQL1060N)) w l
      with msg | wlm
    · rw [hE] at hres
      exact absurd hres (by simp [Except.map])
    · rw [hE] at hres
      simp only [Except.map, Except.ok.injEq] at hres
      subst hres
      rw [hlw]
      exact dieCutEntry_fits _ w l wlm.1 wlm.2.1 wlm.2.2 (by rw [← hE])
        (hw.imp (fun h1 => h1) hcor)

/-! ## C3: error-flag handling -/

/-- Inversion: a successful `read_status_response` means every header
validation passed and the decode produced the status. -/
theorem read_status_ok_inv (model : Model) (rb : Nat) (data : List Nat)
    (status : Status) (hok : read_status_response model rb data = .ok status) :
    decode_status model data = .ok status := by
  unfold read_status_response at hok
  split at hok
  · exact absurd hok (by simp)
  · split at hok
    · exact absurd hok (by simp)
    · split at hok
      · exact absurd hok (by simp)
      · exact hok

/-- Inversion: the decoded error flags are always the truncated
little-endian 16-bit value of frame bytes 8 and 9. -/
theorem decode_status_error_flags (model : Model) (data : List Nat)
    (status : Status) (hok : decode_status model data = .ok status) :
    status.error_flags = from_bits_truncate (data.getD 8 0 + 256 * data.getD 9 0) := by
  unfold decode_status at hok
  split at hok
  · split at hok
    · exact absurd hok (by simp)
    · injection hok with h
      subst h
      rfl
  · injection hok with h
    subst h
    rfl

/-- Claim C3 (counterexample): a frame whose little-endian error bytes
encode the nonzero value 8 — bit 3, not a declared flag — is truncated
to the empty flag set by `from_bits_truncate`; `print` proceeds past
the status check and fails with `NoMedia` instead of aborting with
`StatusErrorFlags`. -/
theorem print_ignores_undefined_flag_bits :
    frameBit3.getD 8 0 + 256 * frameBit3.getD 9 0 = 8 ∧
    from_bits_truncate 8 = 0 ∧
    Printer.print .BrotherQL500 PrintConfig.default 32 frameBit3 img1x1 =
      some ([statusRequestCmd], .error .NoMedia) := by decide

/-- Claim C3 (amended): `print` aborts with `StatusErrorFlags` exactly
when some *declared* flag bit of the frame's 16-bit little-endian
error value is set — the decoded flags are the value masked with
`errorFlagsMask`, and a zero masked value (even from nonzero raw
bytes) lets `print` proceed past the status check. -/
theorem print_error_flags_abort_iff_recognized (model : Model) (cfg : PrintConfig)
    (data : List Nat) (image : GrayImage) (status : Status)
    (hok : read_status_response model 32 data = .ok status) :
    status.error_flags = (data.getD 8 0 + 256 * data.getD 9 0) &&& errorFlagsMask ∧
    (status.error_flags ≠ 0 →
      Printer.print model cfg 32 data image =
        some ([statusRequestCmd], .error (.StatusErrorFlags status.error_flags))) ∧
    (status.error_flags = 0 → ∀ tr res f,
      Printer.print model cfg 32 data image = some (tr, res) →
      res ≠ .error (.StatusErrorFlags f)) := by
  have hflags :=
    decode_status_error_flags model data status (read_status_ok_inv model 32 data status hok)
  refine ⟨hflags, fun hne => ?_, fun h0 tr res f hpr => ?_⟩
  · simp only [Printer.print, hok]
    rw [if_pos hne]
  · simp only [Printer.print, hok] at hpr
    rw [if_neg (fun hh => hh h0)] at hpr
    rcases hL : status.label with _ | label
    · rw [hL] at hpr
      simp only [Option.some.injEq, Prod.mk.injEq] at hpr
      obtain ⟨-, h2⟩ := hpr
      subst h2
      simp
    · rw [hL] at hpr
      simp only [] at hpr
      by_cases hc : (label.printable_dots_width != image.width
          || (expectedLength label cfg.high_res).elim false
              (fun l => l != image.height)) = true
      · rw [if_pos hc] at hpr
        simp only [Option.some.injEq, Prod.mk.injEq] at hpr
        obtain ⟨-, h2⟩ := hpr
        subst h2
        simp
      · rw [if_neg hc] at hpr
        rcases hE : encodeLines (Model.line_width model) label.margin_dots_right
            cfg.invert image.rows with _ | cmds
        · rw [hE] at hpr
          exact absurd hpr (by simp)
        · rw [hE] at hpr
          simp only [Option.some.injEq, Prod.mk.injEq] at hpr
          obtain ⟨-, h2⟩ := hpr
          subst h2
          simp

/-- Witness for the amended C3: a frame with the declared `NO_MEDIA`
flag bit set makes `print` abort with exactly that flag attached. -/
theorem print_error_flags_abort_iff_recognized_witness :
    Printer.print .BrotherQL500 PrintConfig.default 32 frameFlag1 img1x1 =
      some ([statusRequestCmd], .error (.StatusErrorFlags 1)) := by
  have h := print_error_flags_abort_iff_recognized .BrotherQL500 PrintConfig.default
    frameFlag1 img1x1
    ⟨1, some ⟨.Continuous 62, 696, none, 12, 35⟩, .StatusReply, .Waiting, none⟩
    (by decide)
  exact h.2.1 (by decide)

/-! ## C5: the image dimension check -/

/-- Claim C5: with a healthy status and a resolved label, `print` fails
with `WrongImageDimensions` exactly when the image's dimensions differ
from the expected ones — width must equal the label's printable width
and, when the label has a printable length (die-cut media), the height
must equal it, doubled in high-resolution mode; matching dimensions
proceed unchanged into the command sequence (no scaling or cropping),
and continuous media (no printable length) constrains only the width. -/
theorem print_dimension_check_iff (model : Model) (cfg : PrintConfig)
    (data : List Nat) (image : GrayImage) (status : Status) (label : Label)
    (hok : read_status_response model 32 data = .ok status)
    (hflags : status.error_flags = 0)
    (hlabel : status.label = some label) :
    (label.printable_dots_width ≠ image.width ∨
      ∃ l, expectedLength label cfg.high_res = some l ∧ l ≠ image.height) ↔
      Printer.print model cfg 32 data image =
        some ([statusRequestCmd],
          .error (.WrongImageDimensions image.width image.height
            label.printable_dots_width (expectedLength label cfg.high_res))) := by
  have hcond : (label.printable_dots_width != image.width
      || (expectedLength label cfg.high_res).elim false
          (fun l => l != image.height)) = true ↔
      (label.printable_dots_width ≠ image.width ∨
        ∃ l, expectedLength label cfg.high_res = some l ∧ l ≠ image.height) := by
    rcases hE : expectedLength label cfg.high_res with _ | l <;> simp [hE]
  constructor
  · intro hC
    simp only [Printer.print, hok]
    rw [if_neg (fun hh => hh hflags), hlabel]
    simp only []
    rw [if_pos (hcond.mpr hC)]
  · intro hpr
    by_cases hc : (label.printable_dots_width != image.width
        || (expectedLength label cfg.high_res).elim false
            (fun l => l != image.height)) = true
    · exact hcond.mp hc
    · exfalso
      simp only [Printer.print, hok] at hpr
      rw [if_neg (fun hh => hh hflags), hlabel] at hpr
      simp only [] at hpr
      rw [if_neg hc] at hpr
      rcases hE : encodeLines (Model.line_width model) label.margin_dots_right
          cfg.invert image.rows with _ | cmds
      · rw [hE] at hpr
        exact absurd hpr (by simp)
      · rw [hE] at hpr
        simp only [Option.some.injEq, Prod.mk.injEq] at hpr
        exact absurd hpr.2 (by simp)

/-- Witness for C5: a 100-dot-wide image on a 696-dot continuous 62 mm
label is rejected with the dimension error. -/
theorem print_dimension_check_iff_witness :
    Printer.print .BrotherQL500 PrintConfig.default 32 frame62 img100 =
      some ([statusRequestCmd],
        .error (.WrongImageDimensions 100 1 696 none)) := by
  have h := print_dimension_check_iff .BrotherQL500 PrintConfig.default frame62 img100
    ⟨0, some ⟨.Continuous 62, 696, none, 12, 35⟩, .StatusReply, .Waiting, none⟩
    ⟨.Continuous 62, 696, none, 12, 35⟩ (by decide) rfl rfl
  exact h.mp (Or.inl (by decide))

/-! ## C10: pre-flight atomicity of `print` -/

/-- Claim C10: whenever `print` returns the error-flags, no-media or
wrong-image-dimensions error, the only bytes written to the device are
the 3-byte status request — every print command is emitted only after
all three pre-flight checks have passed. -/
theorem print_preflight_atomicity (model : Model) (cfg : PrintConfig)
    (rb : Nat) (data : List Nat) (image : GrayImage)
    (tr : List (List Nat)) (res : Except PrintError Unit)
    (hpr : Printer.print model cfg rb data image = some (tr, res))
    (herr : (∃ f, res = .error (.StatusErrorFlags f)) ∨ res = .error .NoMedia ∨
      ∃ a b c d, res = .error (.WrongImageDimensions a b c d)) :
    tr = [statusRequestCmd] := by
  simp only [Printer.print] at hpr
  rcases hR : read_status_response model rb data with e | status
  · rw [hR] at hpr
    simp only [Option.some.injEq, Prod.mk.injEq] at hpr
    exact hpr.1.symm
  · rw [hR] at hpr
    simp only [] at hpr
    by_cases hf : status.error_flags ≠ 0
    · rw [if_pos hf] at hpr
      simp only [Option.some.injEq, Prod.mk.injEq] at hpr
      exact hpr.1.symm
    · rw [if_neg hf] at hpr
      rcases hL : status.label with _ | label
      · rw [hL] at hpr
        simp only [Option.some.injEq, Prod.mk.injEq] at hpr
        exact hpr.1.symm
      · rw [hL] at hpr
        simp only [] at hpr
        by_cases hc : (label.printable_dots_width != image.width
            || (expectedLength label cfg.high_res).elim false
                (fun l => l != image.height)) = true
        · rw [if_pos hc] at hpr
          simp only [Option.some.injEq, Prod.mk.injEq] at hpr
          exact hpr.1.symm
        · rw [if_neg hc] at hpr
          rcases hE : encodeLines (Model.line_width model) label.margin_dots_right
              cfg.invert image.rows with _ | cmds
          · rw [hE] at hpr
            exact absurd hpr (by simp)
          · rw [hE] at hpr
            simp only [Option.some.injEq, Prod.mk.injEq] at hpr
            obtain ⟨-, h2⟩ := hpr
            rcases herr with ⟨f, hf'⟩ | hf' | ⟨a, b, c, d, hf'⟩ <;>
              (rw [hf'] at h2; exact absurd h2 (by simp))

/-- Witness for C10: the no-media abort leaves exactly the status
request on the wire. -/
theorem print_preflight_atomicity_witness :
    Printer.print .BrotherQL500 PrintConfig.default 32 frameNoMedia img1x1 =
      some ([statusRequestCmd], .error .NoMedia) ∧
    [statusRequestCmd] = [statusRequestCmd] :=
  ⟨by decide,
    print_preflight_atomicity .BrotherQL500 PrintConfig.default 32 frameNoMedia img1x1
      [statusRequestCmd] (.error .NoMedia) (by decide) (Or.inr (Or.inl rfl))⟩

/-! ## C7: scale weight-response parsing -/

set_option maxRecDepth 100000 in
/-- Claim C7: for every 45-byte weight response, the byte at offset 14
selects the sign (`0x20` positive, `0x2d` negative, anything else a
parse-error reading), the 6-byte field at offsets 15–20 goes through
UTF-8 decoding, whitespace trimming and the float parse, a failure of
either step publishes the parse error, and the crafted response with
sign `0x2d` and digits `"012.50"` publishes `-12.5`. -/
theorem parse_weight_response_spec (resp : List Nat) (hlen : resp.length = 45) :
    (resp.getD 14 0 ≠ 0x20 → resp.getD 14 0 ≠ 0x2d →
      parse_weight_response resp = .error .FailedToParse) ∧
    ((utf8Decode ((resp.drop 15).take 6)).bind
        (fun cs => parseF64 (strTrim cs)) = none →
      parse_weight_response resp = .error .FailedToParse) ∧
    (∀ v, (utf8Decode ((resp.drop 15).take 6)).bind
          (fun cs => parseF64 (strTrim cs)) = some v →
      (resp.getD 14 0 = 0x20 → parse_weight_response resp = .ok v) ∧
      (resp.getD 14 0 = 0x2d → parse_weight_response resp = .ok (f64Neg v))) ∧
    (resp.getD 14 0 = 0x2d →
      (resp.drop 15).take 6 = [0x30, 0x31, 0x32, 0x2e, 0x35, 0x30] →
      parse_weight_response resp = .ok (F64.finite (-(25 / 2 : ℚ)))) := by
  refine ⟨fun h1 h2 => ?_, fun hnone => ?_,
    fun v hv => ⟨fun hs => ?_, fun hs => ?_⟩, fun hs hf => ?_⟩
  · unfold parse_weight_response
    rw [if_neg (fun h => h.elim h1 h2)]
  · unfold parse_weight_response
    by_cases hc : resp.getD 14 0 = 0x20 ∨ resp.getD 14 0 = 0x2d
    · rw [if_pos hc]
      rcases hu : utf8Decode ((resp.drop 15).take 6) with _ | cs
      · rfl
      · rw [hu] at hnone
        simp only [Option.bind] at hnone
        simp only [hnone]
    · rw [if_neg hc]
  · unfold parse_weight_response
    rw [if_pos (Or.inl hs)]
    rcases hu : utf8Decode ((resp.drop 15).take 6) with _ | cs
    · rw [hu] at hv
      exact absurd hv (by simp)
    · rw [hu] at hv
      simp only [Option.bind] at hv
      simp only [hv]
      rw [if_neg (show ¬resp.getD 14 0 = 0x2d by rw [hs]; decide)]
  · unfold parse_weight_response
    rw [if_pos (Or.inr hs)]
    rcases hu : utf8Decode ((resp.drop 15).take 6) with _ | cs
    · rw [hu] at hv
      exact absurd hv (by simp)
    · rw [hu] at hv
      simp only [Option.bind] at hv
      simp only [hv]
      rw [if_pos hs]
  · have hu : utf8Decode [0x30, 0x31, 0x32, 0x2e, 0x35, 0x30] =
        some [0x30, 0x31, 0x32, 0x2e, 0x35, 0x30] := rfl
    have hp : parseF64 (strTrim [0x30, 0x31, 0x32, 0x2e, 0x35, 0x30]) =
        some (roundF64 1250 (-2)) := rfl
    have hr : f64Neg (roundF64 1250 (-2)) = F64.finite (-(25 / 2 : ℚ)) := by
      rw [show roundF64 1250 (-2) =
          F64.finite ((roundHalfEvenNat (1250 * 2 ^ 49) 100 : ℕ) * qpow2 (-49)) from rfl]
      simp only [f64Neg, F64.finite.injEq]
      norm_num [roundHalfEvenNat, qpow2]
      rw [show Int.toNat 49 = 49 from rfl]
      norm_num
    unfold parse_weight_response
    rw [if_pos (Or.inr hs)]
    simp only [hf, hu, hp, if_pos hs, hr]

/-- Witness for C7: the crafted 45-byte response evaluates to the
published reading `-12.5`. -/
theorem parse_weight_response_spec_witness :
    parse_weight_response resp4550 = .ok (F64.finite (-(25 / 2 : ℚ))) :=
  (parse_weight_response_spec resp4550 (by decide)).2.2.2 (by decide) (by decide)

/-- Witness for C4: continuous 12 mm media on the QL-500 (width 106,
right margin 29), an all-dark 106-pixel row. -/
theorem print_all_dark_row_payload_witness :
    ∃ payload,
      encodeLine (Model.line_width .BrotherQL500)
        (Label.margin_dots_right ⟨.Continuous 12, 106, none, 29, 35⟩)
        (List.replicate 106 0) false = some payload ∧
      (∀ i, i < Label.margin_dots_right ⟨.Continuous 12, 106, none, 29, 35⟩ →
        lineBit payload i = false) ∧
      (∀ j, j < Label.printable_dots_width ⟨.Continuous 12, 106, none, 29, 35⟩ →
        lineBit payload
          (Label.margin_dots_right ⟨.Continuous 12, 106, none, 29, 35⟩ + j) = true) :=
  print_all_dark_row_payload .BrotherQL500 (.Continuous 12)
    ⟨.Continuous 12, 106, none, 29, 35⟩ (List.replicate 106 0)
    (by decide) (by decide)
    (fun px hpx => by rw [List.eq_of_mem_replicate hpx]; decide)
    (by decide)

/-- Witness for C8: same label, a mixed 106-pixel row. -/
theorem encode_row_invert_complement_witness :
    ∃ payloadPlain payloadInv,
      encodeLine (Model.line_width .BrotherQL500)
        (Label.margin_dots_right ⟨.Continuous 12, 106, none, 29, 35⟩)
        (List.replicate 53 0 ++ List.replicate 53 255) false = some payloadPlain ∧
      encodeLine (Model.line_width .BrotherQL500)
        (Label.margin_dots_right ⟨.Continuous 12, 106, none, 29, 35⟩)
        (List.replicate 53 0 ++ List.replicate 53 255) true = some payloadInv ∧
      (∀ j, j < Label.printable_dots_width ⟨.Continuous 12, 106, none, 29, 35⟩ →
        lineBit payloadInv
            (Label.margin_dots_right ⟨.Continuous 12, 106, none, 29, 35⟩ + j) =
          !(lineBit payloadPlain
            (Label.margin_dots_right ⟨.Continuous 12, 106, none, 29, 35⟩ + j))) ∧
      (∀ i, i < Label.margin_dots_right ⟨.Continuous 12, 106, none, 29, 35⟩ →
        lineBit payloadPlain i = false ∧ lineBit payloadInv i = false) :=
  encode_row_invert_complement .BrotherQL500 (.Continuous 12)
    ⟨.Continuous 12, 106, none, 29, 35⟩
    (List.replicate 53 0 ++ List.replicate 53 255)
    (by decide) (by decide) (by decide)

end WeightWb
